import Mathlib

set_option maxHeartbeats 1600000
set_option synthInstance.maxSize 512

/-
  Verification development for the two source files of this repository:

    src/db/db/dbHierarchyBuilder.cc
    src/db/db/dbNetlistDeviceExtractor.cc

  The geometry primitives (db::Box, db::Polygon, db::PolygonRef), the box
  tree, the recursive-shape-iterator framework and the layout storage are
  collaborators that are not part of the two source files; they are modelled
  from the specification's description of their interfaces.  Everything that
  is in the two source files (the clip-variant computation, the iterator
  comparator, the hierarchy-builder callbacks, the shape-receiver stages and
  the device-extractor routines) is translated statement by statement.
-/

/-! ## Geometry collaborators -/

/-- Modelled from the spec: the out-of-src `db::Box` collaborator, an
axis-aligned box on integer (32-bit database unit) coordinates.  A box is
empty when its coordinate ranges are inverted; a zero-width or zero-height
box is degenerate but not empty. -/
structure Box where
  left : Int
  bottom : Int
  right : Int
  top : Int
deriving DecidableEq

/-- Modelled from the spec: the *world* sentinel box (full 32-bit coordinate
range), meaning "no clipping". -/
def Box.world : Box :=
  ⟨-2147483648, -2147483648, 2147483647, 2147483647⟩

/-- Modelled from the spec: emptiness of a `db::Box` (inverted ranges). -/
def Box.empty (b : Box) : Bool :=
  b.right < b.left || b.top < b.bottom

/-- Modelled from the spec: `db::Box::overlaps` — two boxes overlap when
their intersection has a non-vanishing interior (merely touching boxes do
not overlap). -/
def Box.overlaps (a b : Box) : Bool :=
  !a.empty && !b.empty &&
    a.left < b.right && b.left < a.right &&
    a.bottom < b.top && b.bottom < a.top

/-- Modelled from the spec: `db::Box::inside` — containment of the first box
in the second (touching the boundary counts as inside). -/
def Box.inside (a b : Box) : Bool :=
  !a.empty && !b.empty &&
    b.left ≤ a.left && a.right ≤ b.right &&
    b.bottom ≤ a.bottom && a.top ≤ b.top

/-- Modelled from the spec: `db::Box::operator&`, the intersection of two
boxes (componentwise max/min; an empty input yields an empty result). -/
def Box.inter (a b : Box) : Box :=
  ⟨max a.left b.left, max a.bottom b.bottom, min a.right b.right, min a.top b.top⟩

/-- Modelled from the spec: area of a `db::Box` (0 for an empty box). -/
def Box.area (b : Box) : Int :=
  if b.empty then 0 else (b.right - b.left) * (b.top - b.bottom)

/-- Membership of a point in a box (closed region reading, used to witness
that a degenerate box is a nonempty set of points). -/
def Box.containsPoint (b : Box) (x y : Int) : Bool :=
  b.left ≤ x && x ≤ b.right && b.bottom ≤ y && y ≤ b.top

/-- Modelled from the spec: a polygon collaborator — a hull contour plus hole
contours, each a list of integer points. -/
structure Polygon where
  hull : List (Int × Int)
  holes : List (List (Int × Int))
deriving DecidableEq

/-- Cyclic shoelace accumulator: sum of cross products of consecutive edges,
closing the contour back to the start point `p0`. -/
def shoelaceAux (p0 : Int × Int) : List (Int × Int) → Int
  | [] => 0
  | [p] => p.1 * p0.2 - p0.1 * p.2
  | p :: q :: rest => (p.1 * q.2 - q.1 * p.2) + shoelaceAux p0 (q :: rest)

/-- Twice the signed area of a closed contour. -/
def shoelace2 : List (Int × Int) → Int
  | [] => 0
  | p :: rest => shoelaceAux p (p :: rest)

/-- Modelled from the spec: total number of polygon vertices over all
contours (hull plus holes), as summed by the reducing receiver. -/
def Polygon.vertexCount (p : Polygon) : Nat :=
  p.hull.length + (p.holes.map List.length).sum

/-- Modelled from the spec: twice the polygon area; holes are stored with
opposite orientation and therefore enter negatively. -/
def Polygon.area2 (p : Polygon) : Int :=
  shoelace2 p.hull + (p.holes.map shoelace2).sum

/-- Modelled from the spec: polygon area as a rational number. -/
def Polygon.area (p : Polygon) : ℚ :=
  (p.area2 : ℚ) / 2

/-- Modelled from the spec: bounding box of a polygon (from its hull
points; the default-constructed empty box for a pointless polygon). -/
def Polygon.box (p : Polygon) : Box :=
  match p.hull with
  | [] => ⟨0, 0, -1, -1⟩
  | q :: rest =>
      rest.foldl
        (fun b r => ⟨min b.left r.1, min b.bottom r.2, max b.right r.1, max b.top r.2⟩)
        ⟨q.1, q.2, q.1, q.2⟩

/-- Modelled from the spec: the polygon spanning a box (counterclockwise
hull, no holes), as produced by the `db::Polygon` box constructor. -/
def Polygon.ofBox (b : Box) : Polygon :=
  { hull := [(b.left, b.bottom), (b.right, b.bottom), (b.right, b.top), (b.left, b.top)]
    holes := [] }

/-- Modelled from the spec: translation of a polygon (the displacement part
of a `db::PolygonRef` transformation). -/
def Polygon.translate (v : Int × Int) (p : Polygon) : Polygon :=
  { hull := p.hull.map (fun q => (q.1 + v.1, q.2 + v.2))
    holes := p.holes.map (fun h => h.map (fun q => (q.1 + v.1, q.2 + v.2))) }

/-! ## dbHierarchyBuilder.cc: clip-variant computation -/

/--
`compute_clip_variant` from dbHierarchyBuilder.cc (lines 87–123).

The instance transform enters the source only through `trans.inverted ()`
applied to boxes, so the embedding takes that inverse box action `tinv`
directly.  The complex region (an out-of-src box tree) is modelled as a list
of boxes whose `begin_overlapping (region)` selection is a filter by overlap
with `region`.  The box product `rect_box * cr_in_cell` on line 109 is an
operation of the out-of-src box collaborator; following the spec's
description of the clip-variant computation ("insert `rect ∩ c'` into the
variant") it is modelled as the intersection.
-/
def compute_clip_variant (cell_bbox : Box) (tinv : Box → Box) (region : Box)
    (complex_region : Option (List Box)) : Bool × Finset Box :=
  if region = Box.world then
    (true, ∅)
  else
    let region_in_cell := tinv region
    if cell_bbox.overlaps region_in_cell then
      let rect_box := Box.inter region_in_cell cell_bbox
      match complex_region with
      | some crs =>
          let cv := (crs.filter (fun cr => cr.overlaps region)).foldl
            (fun acc cr =>
              let cr_in_cell := tinv cr
              if rect_box.overlaps cr_in_cell then
                insert (Box.inter rect_box cr_in_cell) acc
              else acc) ∅
          if cv = ∅ then (false, ∅) else (true, cv)
      | none => (true, {rect_box})
    else
      (false, ∅)

/-! ## dbHierarchyBuilder.cc: iterator comparator -/

/-- The observable state of a `db::RecursiveShapeIterator` as read by the
comparator: layout identity token, top cell index, maximum depth, region,
complex-region flag and content token, layer mode and layer set. -/
structure Iter where
  layout : Nat
  top_cell : Nat
  max_depth : Nat
  region : Box
  has_complex_region : Bool
  complex_region : Nat
  multiple_layers : Bool
  layers : List Nat
  layer : Nat
deriving DecidableEq

/-- Lexicographic `operator<` of `std::vector<unsigned int>`. -/
def listLt : List Nat → List Nat → Bool
  | [], [] => false
  | [], _ :: _ => true
  | _ :: _, [] => false
  | a :: as, b :: bs => if a < b then true else if b < a then false else listLt as bs

/--
`compare_iterators_with_respect_to_target_hierarchy` from
dbHierarchyBuilder.cc (lines 36–80).  Every early-out except the last two
returns `x < y ? -1 : 1`; the final two branches (`layers`, `layer`) return
the C++ comparison `iter1.f () < iter2.f ()` itself, which converts the bool
to 0 or 1.
-/
def compare_iters (i1 i2 : Iter) : Int :=
  if i1.layout ≠ i2.layout then
    (if i1.layout < i2.layout then -1 else 1)
  else if i1.top_cell ≠ i2.top_cell then
    (if i1.top_cell < i2.top_cell then -1 else 1)
  else if i1.max_depth ≠ i2.max_depth then
    (if i1.max_depth < i2.max_depth then -1 else 1)
  else if (decide (i1.region = Box.world)) ≠ (decide (i2.region = Box.world)) then
    (if !(decide (i1.region = Box.world)) && (decide (i2.region = Box.world)) then -1 else 1)
  else if i1.region ≠ Box.world then
    if i1.has_complex_region ≠ i2.has_complex_region then
      (if !i1.has_complex_region && i2.has_complex_region then -1 else 1)
    else if i1.has_complex_region = true ∧ i1.complex_region ≠ i2.complex_region then
      (if i1.complex_region < i2.complex_region then -1 else 1)
    else if i1.multiple_layers ≠ i2.multiple_layers then
      (if !i1.multiple_layers && i2.multiple_layers then -1 else 1)
    else if i1.multiple_layers = true then
      (if i1.layers ≠ i2.layers then (if listLt i1.layers i2.layers then 1 else 0) else 0)
    else
      (if i1.layer ≠ i2.layer then (if i1.layer < i2.layer then 1 else 0) else 0)
  else
    0

/-- First iterator of the concrete comparator counterexample: identical to
`iterB` except for the (single-mode) layer, which is larger. -/
def iterA : Iter :=
  { layout := 0, top_cell := 0, max_depth := 0, region := ⟨0, 0, 10, 10⟩
    has_complex_region := false, complex_region := 0
    multiple_layers := false, layers := [], layer := 2 }

/-- Second iterator of the concrete comparator counterexample. -/
def iterB : Iter :=
  { iterA with layer := 1 }

/-! ## dbHierarchyBuilder.cc: shape receivers -/

/-- The generic shape handle (`db::Shape`) dispatched by the receivers:
texts, edges and edge pairs carry only their bounding box here; paths carry
the polygon they normalise to via `shape.polygon (poly)`. -/
inductive Shape where
  | text (bbox : Box)
  | edge (bbox : Box)
  | edgePair (bbox : Box)
  | box (b : Box)
  | polygon (p : Polygon)
  | simplePolygon (p : Polygon)
  | path (p : Polygon)
deriving DecidableEq

/-- `shape.bbox ()` of the generic shape handle. -/
def Shape.bbox : Shape → Box
  | .text b | .edge b | .edgePair b => b
  | .box b => b
  | .polygon p | .simplePolygon p | .path p => p.box

/-- One call into the downstream receiver `mp_pipe`: which overload was
invoked (shape handle, box or polygon), with its region and complex-region
arguments. -/
inductive Pushed where
  | sh (s : Shape) (region : Box) (cr : Option (List Box))
  | bx (b : Box) (region : Box) (cr : Option (List Box))
  | pg (p : Polygon) (region : Box) (cr : Option (List Box))
deriving DecidableEq

/-- `ClippingHierarchyBuilderShapeReceiver::is_inside` (lines 352–377).
Note the control flow: when the box is inside the region and there is *no*
complex region, the function falls through to `return false`. -/
def is_inside (box region : Box) (complex_region : Option (List Box)) : Bool :=
  if region = Box.world then
    true
  else if box.inside region then
    let rect_box := Box.inter region box
    match complex_region with
    | some crs => (crs.filter (fun cr => rect_box.overlaps cr)).any (fun cr => rect_box.inside cr)
    | none => false
  else
    false

/-- `ClippingHierarchyBuilderShapeReceiver::is_outside` (lines 379–403). -/
def is_outside (box region : Box) (complex_region : Option (List Box)) : Bool :=
  if region = Box.world then
    false
  else if box.overlaps region then
    let rect_box := Box.inter region box
    match complex_region with
    | some crs => !(crs.filter (fun cr => rect_box.overlaps cr)).any (fun cr => rect_box.overlaps cr)
    | none => false
  else
    true

/-- `ClippingHierarchyBuilderShapeReceiver::insert_clipped` for boxes
(lines 405–418). -/
def insert_clipped_box (box region : Box) (complex_region : Option (List Box)) : List Pushed :=
  let bb := Box.inter box region
  match complex_region with
  | some crs =>
      (crs.filter (fun cr => cr.overlaps bb)).map (fun cr => .bx (Box.inter cr bb) Box.world none)
  | none => [.bx bb Box.world none]

/-- `ClippingHierarchyBuilderShapeReceiver::insert_clipped` for polygons
(lines 420–438); the external `db::clip_poly` is a parameter. -/
def insert_clipped_poly (clip_poly : Polygon → Box → List Polygon) (poly : Polygon)
    (region : Box) (complex_region : Option (List Box)) : List Pushed :=
  let clipped : List Polygon :=
    match complex_region with
    | some crs =>
        (crs.filter (fun cr => cr.overlaps region)).foldl
          (fun acc cr => acc ++ clip_poly poly (Box.inter cr region)) []
    | none => clip_poly poly region
  clipped.map (fun q => .pg q Box.world none)

/-- `ClippingHierarchyBuilderShapeReceiver::push` for the generic shape
handle (lines 300–323); the returned list is the trace of calls into the
downstream receiver. -/
def clip_push (clip_poly : Polygon → Box → List Polygon) (s : Shape) (region : Box)
    (complex_region : Option (List Box)) : List Pushed :=
  if region = Box.world ∨ is_inside s.bbox region complex_region = true then
    [.sh s Box.world none]
  else if is_outside s.bbox region complex_region = false then
    match s with
    | .text _ | .edge _ | .edgePair _ => [.sh s Box.world none]
    | .box b => insert_clipped_box b region complex_region
    | .polygon p | .simplePolygon p | .path p =>
        insert_clipped_poly clip_poly p region complex_region
  else
    []

/-- A trivial external polygon clipper used for concrete instances. -/
def cpZero : Polygon → Box → List Polygon := fun _ _ => []

/-- `area_ratio` from dbHierarchyBuilder.cc (lines 474–477):
`double (poly.box ().area ()) / double (poly.area ())`, modelled over the
rationals. -/
def polyAreaQuotient (p : Polygon) : ℚ :=
  (p.box.area : ℚ) / p.area

/-- Sequencing of recursive reduction results: all pieces must succeed. -/
def joinOpts : List (Option (List Polygon)) → Option (List Polygon)
  | [] => some []
  | none :: _ => none
  | some xs :: rest => (joinOpts rest).map (fun ys => xs ++ ys)

/-- `ReducingHierarchyBuilderShapeReceiver::reduce` (lines 479–498).  The
external `db::split_polygon` is the parameter `split`; the C++ recursion is
bounded here by explicit fuel, and `none` models non-termination of the
split recursion.  The emitted polygons are returned (each is passed
downstream with the untouched `region`/`complex_region` arguments). -/
def reduce (split : Polygon → List Polygon) (max_vertex_count : Nat) (aRatioMax : ℚ) :
    Nat → Polygon → Option (List Polygon)
  | 0, _ => none
  | fuel + 1, poly =>
      if poly.vertexCount > max_vertex_count ∨ polyAreaQuotient poly > aRatioMax then
        joinOpts ((split poly).map (reduce split max_vertex_count aRatioMax fuel))
      else
        some [poly]

/-! ## dbHierarchyBuilder.cc: the HierarchyBuilder state machine -/

/-- Key of the builder's cell map: `(source cell index, clip variant)`. -/
abbrev CellKey := Nat × Finset Box

/-- Association-list lookup, the model of `std::map::find`. -/
def alookup {α β : Type} [DecidableEq α] : List (α × β) → α → Option β
  | [], _ => none
  | kv :: rest, k => if kv.1 = k then some kv.2 else alookup rest k

/-- Return value of `HierarchyBuilder::new_inst`. -/
inductive NIMode where
  | single
  | skip
  | all
deriving DecidableEq

/-- State of a `HierarchyBuilder` together with the structural content of
its target layout: `next_cell` counts the cells created by
`Layout::add_cell`, and `insts` records the instance arrays inserted into
target cells as (parent target cell, child target cell) pairs. -/
structure Builder where
  initial_pass : Bool
  ref_iter : Iter
  cell_map : List (CellKey × Nat)
  cells_seen : Finset CellKey
  cell_stack : List Nat
  cm_entry : Option (CellKey × Nat)
  next_cell : Nat
  initial_cell : Option Nat
  insts : List (Nat × Nat)
deriving DecidableEq

/-- The shared find-or-create step on the cell map: look the key up and
otherwise `add_cell` a fresh target cell, recording the map entry; both
paths set `m_cm_entry`.  Returns the target cell index for the key. -/
def lookupOrCreate (st : Builder) (key : CellKey) : Builder × Nat :=
  match alookup st.cell_map key with
  | some c => ({ st with cm_entry := some (key, c) }, c)
  | none =>
      let c := st.next_cell
      ({ st with next_cell := c + 1
                 cell_map := (key, c) :: st.cell_map
                 cm_entry := some (key, c) }, c)

/-- Body of `HierarchyBuilder::begin` after the pass bookkeeping: clear the
stack and seen set, look up or create the top target cell keyed by
`(top_index, ∅)`, mark it seen and push it. -/
def hb_begin_core (st : Builder) (iter : Iter) : Option Builder :=
  let st1 := { st with cell_stack := ([] : List Nat), cells_seen := (∅ : Finset CellKey) }
  let key : CellKey := (iter.top_cell, (∅ : Finset Box))
  let sc := lookupOrCreate st1 key
  some { sc.1 with cells_seen := insert key sc.1.cells_seen, cell_stack := [sc.2] }

/-- `HierarchyBuilder::begin` (lines 160–185).  On the initial pass the
reference iterator is recorded; on later passes the compatibility assertion
`tl_assert (compare (...) == 0)` is modelled by returning `none` on failure.
The top-cell lookup-or-create is *not* guarded by the initial-pass flag. -/
def hb_begin (st : Builder) (iter : Iter) : Option Builder :=
  if st.initial_pass then
    hb_begin_core { st with ref_iter := iter } iter
  else if compare_iters st.ref_iter iter = 0 then
    hb_begin_core st iter
  else
    none

/-- `HierarchyBuilder::end` (lines 187–197): asserts a one-element cell
stack, freezes the initial-pass flag and remembers the initial cell. -/
def hb_end (st : Builder) : Option Builder :=
  if st.cell_stack.length = 1 then
    some { st with initial_pass := false
                   cells_seen := (∅ : Finset CellKey)
                   initial_cell := st.cell_stack.head?
                   cell_stack := []
                   cm_entry := none }
  else
    none

/-- `HierarchyBuilder::enter_cell` (lines 199–206): asserts a valid cell-map
entry, marks its key seen and pushes its target cell. -/
def hb_enter_cell (st : Builder) : Option Builder :=
  match st.cm_entry with
  | none => none
  | some (k, c) =>
      some { st with cells_seen := insert k st.cells_seen
                     cell_stack := c :: st.cell_stack }

/-- `HierarchyBuilder::leave_cell` (lines 208–212). -/
def hb_leave_cell (st : Builder) : Option Builder :=
  some { st with cell_stack := st.cell_stack.tail }

/-- `HierarchyBuilder::new_inst` (lines 214–244).  With `all` set the
whole-array key `(child, ∅)` is looked up; only on the initial pass is a
target cell possibly created and a remapped copy of the instance array
inserted into the parent.  Without `all` the caller is told to iterate the
array members. -/
def hb_new_inst (st : Builder) (child : Nat) (all : Bool) : Option (Builder × NIMode) :=
  if all then
    let key : CellKey := (child, (∅ : Finset Box))
    if st.initial_pass then
      match st.cell_stack with
      | [] => none
      | parent :: _ =>
          let sc := lookupOrCreate st key
          let st1 := { sc.1 with insts := (parent, sc.2) :: sc.1.insts }
          some (st1, if key ∈ st1.cells_seen then NIMode.skip else NIMode.single)
    else
      let st1 := { st with cm_entry := (alookup st.cell_map key).map (fun c => (key, c)) }
      some (st1, if key ∈ st1.cells_seen then NIMode.skip else NIMode.single)
  else
    some (st, NIMode.all)

/-- `HierarchyBuilder::new_inst_member` (lines 246–283).  With per-member
clipping the clip variant is computed first; an invalid variant silently
excludes the member (`return false`).  Only on the initial pass is a target
cell possibly created and a single instance inserted into the parent. -/
def hb_new_inst_member (st : Builder) (child : Nat) (child_bbox : Box) (tinv : Box → Box)
    (region : Box) (complex_region : Option (List Box)) (all : Bool) :
    Option (Builder × Bool) :=
  if all then
    some (st, true)
  else
    let cv := compute_clip_variant child_bbox tinv region complex_region
    if cv.1 = false then
      some (st, false)
    else
      let key : CellKey := (child, cv.2)
      if st.initial_pass then
        match st.cell_stack with
        | [] => none
        | parent :: _ =>
            let sc := lookupOrCreate st key
            let st1 := { sc.1 with insts := (parent, sc.2) :: sc.1.insts }
            some (st1, decide (key ∉ st1.cells_seen))
      else
        let st1 := { st with cm_entry := (alookup st.cell_map key).map (fun c => (key, c)) }
        some (st1, decide (key ∉ st1.cells_seen))

/-- One callback of the recursive-shape-iterator traversal protocol, with
the data the builder reads from the iterator at that callback. -/
inductive Event where
  | begin_ev (iter : Iter)
  | end_ev
  | enter_cell
  | leave_cell
  | new_inst (child : Nat) (all : Bool)
  | new_inst_member (child : Nat) (child_bbox : Box) (tinv : Box → Box)
      (region : Box) (complex_region : Option (List Box)) (all : Bool)
  | shape_ev

/-- Dispatch one traversal callback to the builder; `none` models a
`tl_assert` failure.  The `shape` callback only feeds the receiver pipeline
and leaves the builder's structural state unchanged. -/
def step : Event → Builder → Option Builder
  | .begin_ev iter, st => hb_begin st iter
  | .end_ev, st => hb_end st
  | .enter_cell, st => hb_enter_cell st
  | .leave_cell, st => hb_leave_cell st
  | .new_inst child all, st => (hb_new_inst st child all).map Prod.fst
  | .new_inst_member child bb tinv region cr all, st =>
      (hb_new_inst_member st child bb tinv region cr all).map Prod.fst
  | .shape_ev, st => some st

/-- Run a list of traversal callbacks. -/
def run : List Event → Builder → Option Builder
  | [], st => some st
  | e :: es, st =>
      match step e st with
      | none => none
      | some st1 => run es st1

/-- A freshly constructed (or freshly `reset`) `HierarchyBuilder`. -/
def freshBuilder : Builder :=
  { initial_pass := true
    ref_iter := iterA
    cell_map := []
    cells_seen := ∅
    cell_stack := []
    cm_entry := none
    next_cell := 0
    initial_cell := none
    insts := [] }

/-! ## dbNetlistDeviceExtractor.cc: device extractor -/

/-- Per-layer geometry of one terminal: `std::map<unsigned int,
std::vector<db::PolygonRef>>`, as a sorted association list. -/
abbrev LayerGeo := List (Nat × List Polygon)

/-- Per-terminal geometry of one device (`geometry_per_terminal_type`). -/
abbrev TermGeo := List (Nat × LayerGeo)

/-- `m_new_devices`: accumulated geometry per device id. -/
abbrev NewDevices := List (Nat × TermGeo)

/-- A device class: its name and the ids of its parameter definitions. -/
structure DeviceClass where
  name : String
  param_ids : List Nat
deriving DecidableEq

/-- `DeviceCellKey` (dbNetlistDeviceExtractor.h): per-terminal, per-layer
sets of polygon references normalised to the device origin, plus the
parameter-id-to-value map.  Parameter values are modelled as integers. -/
structure DeviceCellKey where
  geometry : List (Nat × List (Nat × Finset Polygon))
  parameters : List (Nat × Int)
deriving DecidableEq

/-- The key-geometry construction of `push_new_devices` (lines 263–275):
every polygon reference is translated by `-disp` and collected into a set
per (terminal, layer). -/
def buildKeyGeometry (disp : Int × Int) (g : TermGeo) :
    List (Nat × List (Nat × Finset Polygon)) :=
  g.map (fun t =>
    (t.1, t.2.map (fun l =>
      (l.1, (l.2.map (Polygon.translate (-disp.1, -disp.2))).toFinset))))

/-- The full `DeviceCellKey` of one entry of `m_new_devices`: normalised
geometry plus the parameter map over the device class's parameter
definitions (lines 263–280).  `pos` is `dbu_inv * device->position ()` and
`pval` is `device->parameter_value`, both keyed by device id. -/
def keyOfDevice (dc : DeviceClass) (pos : Nat → Int × Int) (pval : Nat → Nat → Int)
    (d : Nat × TermGeo) : DeviceCellKey :=
  { geometry := buildKeyGeometry (pos d.1) d.2
    parameters := dc.param_ids.map (fun pid => (pid, pval d.1 pid)) }

/-- What the device-cell creation records for one terminal: the shapes
inserted into the device cell's shape containers (translated by `-disp`,
tagged with the terminal property) and the polygon references added to the
fresh local cluster (the untranslated originals), each paired with its
layer. -/
structure TermResult where
  terminal : Nat
  shapes : List (Nat × Polygon)
  cluster : List (Nat × Polygon)
deriving DecidableEq

/-- A device cell created by `push_new_devices`: its target cell index, its
name, the `DEVICE_CLASS` property attached to it, and the per-terminal
content. -/
structure DeviceCellRec where
  index : Nat
  name : String
  hasDeviceClassProp : Bool
  terms : List TermResult
deriving DecidableEq

/-- The terminal loop of the device-cell creation branch of
`push_new_devices` (lines 303–326): per terminal, shapes are inserted
translated by `-disp` while the local cluster receives the originals. -/
def processTermGeo (disp : Int × Int) (g : TermGeo) : List TermResult :=
  g.map (fun t =>
    { terminal := t.1
      shapes := (t.2.map (fun l =>
        l.2.map (fun s => (l.1, Polygon.translate (-disp.1, -disp.2) s)))).flatten
      cluster := (t.2.map (fun l => l.2.map (fun s => (l.1, s)))).flatten })

/-- State threaded through `push_new_devices`: the device-cell registry
`m_device_cells` (key to (cell index, device model)), the target layout's
cell counter, the device-model counter, the created device cells, the
model/cell attached to each processed device (`device->set_device_model`),
and the device-cell instances inserted into the current cell
(`CellInstArrayWithProperties` with the `DEVICE_ID` property). -/
structure PushState where
  device_cells : List (DeviceCellKey × (Nat × Nat))
  next_cell : Nat
  next_model : Nat
  created : List DeviceCellRec
  assignment : List (Nat × (Nat × Nat))
  insts : List (Nat × (Int × Int) × Nat)
deriving DecidableEq

/-- Processing of one entry of `m_new_devices` by `push_new_devices`
(lines 257–341): build the key, look it up, on a miss allocate the device
cell `D$<class>` tagged with the `DEVICE_CLASS` property and fill it, then
attach the model to the device and insert the device-cell instance. -/
def pushOneDevice (dc : DeviceClass) (pos : Nat → Int × Int) (pval : Nat → Nat → Int)
    (st : PushState) (d : Nat × TermGeo) : PushState :=
  let disp := pos d.1
  let key := keyOfDevice dc pos pval d
  match alookup st.device_cells key with
  | some cm =>
      { st with assignment := (d.1, cm) :: st.assignment
                insts := (cm.1, disp, d.1) :: st.insts }
  | none =>
      let ci := st.next_cell
      let mi := st.next_model
      let cellRec : DeviceCellRec :=
        { index := ci
          name := "D$" ++ dc.name
          hasDeviceClassProp := true
          terms := processTermGeo disp d.2 }
      { st with next_cell := ci + 1
                next_model := mi + 1
                device_cells := (key, (ci, mi)) :: st.device_cells
                created := cellRec :: st.created
                assignment := (d.1, (ci, mi)) :: st.assignment
                insts := (ci, disp, d.1) :: st.insts }

/-- `NetlistDeviceExtractor::push_new_devices` (lines 253–344): fold over
the (id-sorted) `m_new_devices` map. -/
def push_new_devices (dc : DeviceClass) (pos : Nat → Int × Int) (pval : Nat → Nat → Int)
    (st : PushState) (nds : NewDevices) : PushState :=
  nds.foldl (pushOneDevice dc pos pval) st

/-- The layout data read by `is_device_cell`: each cell's property-set id
(0 meaning none), the properties repository's id for the name
`DEVICE_CLASS` (if interned), and the property sets by id as (name id,
value) lists. -/
structure CellPropLayout where
  cell_prop : Nat → Nat
  device_class_name_id : Option Nat
  prop_sets : Nat → List (Nat × String)

/-- `NetlistDeviceExtractor::is_device_cell` (lines 226–246): a cell is a
device cell when it has a properties set containing the `DEVICE_CLASS`
property name. -/
def is_device_cell (ly : CellPropLayout) (ci : Nat) : Bool :=
  let pi := ly.cell_prop ci
  if pi = 0 then
    false
  else
    match ly.device_class_name_id with
    | none => false
    | some pn => (ly.prop_sets pi).any (fun j => j.1 = pn)

/-- What the per-cell loop of `extract_without_initialize` did: which cells
had their circuit reused, which got a fresh circuit, and which had their
clusters investigated. -/
structure ExtractTrace where
  circuits_reused : List Nat
  circuits_created : List Nat
  investigated : List Nat
deriving DecidableEq

/-- The per-cell loop of `extract_without_initialize` (lines 169–223):
cells tagged as device cells from previous extractions are skipped
entirely; otherwise the circuit is reused or created and the cell's
clusters are investigated. -/
def extract_loop (ly : CellPropLayout) (circuits_by_cell : List (Nat × Nat))
    (called_cells : List Nat) : ExtractTrace :=
  called_cells.foldl
    (fun tr ci =>
      if is_device_cell ly ci then
        tr
      else
        match alookup circuits_by_cell ci with
        | some _ =>
            { tr with circuits_reused := ci :: tr.circuits_reused
                      investigated := ci :: tr.investigated }
        | none =>
            { tr with circuits_created := ci :: tr.circuits_created
                      investigated := ci :: tr.investigated })
    ⟨[], [], []⟩

/-- The extractor state touched by `register_device_class` and
`create_device`: the extractor name, the registered device class, the
netlist's device classes, whether a current circuit exists, its device
list and the device id counter. -/
structure ExtractorState where
  ext_name : String
  device_class : Option DeviceClass
  netlist_classes : List DeviceClass
  has_circuit : Bool
  circuit_devices : List Nat
  next_device : Nat
deriving DecidableEq

/-- `NetlistDeviceExtractor::register_device_class` (lines 362–377): fatal
exception when a class is already registered or the extractor has no name;
otherwise the class is renamed to the extractor name and added to the
netlist. -/
def register_device_class (st : ExtractorState) (c : DeviceClass) :
    Except String ExtractorState :=
  if st.device_class.isSome then
    Except.error "Device class already set"
  else if st.ext_name = "" then
    Except.error "No device extractor/device class name set"
  else
    let c1 := { c with name := st.ext_name }
    Except.ok { st with device_class := some c1
                        netlist_classes := c1 :: st.netlist_classes }

/-- `NetlistDeviceExtractor::create_device` (lines 384–394): fatal exception
when no device class is registered; the `tl_assert (mp_circuit != 0)` is
modelled as a distinct fatal error.  Returns the new device's id. -/
def create_device (st : ExtractorState) : Except String (ExtractorState × Nat) :=
  match st.device_class with
  | none => Except.error "No device class registered"
  | some _ =>
      if st.has_circuit then
        let did := st.next_device
        Except.ok ({ st with next_device := did + 1
                             circuit_devices := did :: st.circuit_devices }, did)
      else
        Except.error "assert failed: mp_circuit != 0"

/-- Sorted association-map update, the model of `std::map::operator[]`
followed by a modification: insert in key order or update in place. -/
def updA {β : Type} (upd : Option β → β) (k : Nat) : List (Nat × β) → List (Nat × β)
  | [] => [(k, upd none)]
  | kv :: rest =>
      if k < kv.1 then (k, upd none) :: kv :: rest
      else if k = kv.1 then (k, upd (some kv.2)) :: rest
      else kv :: updA upd k rest

/-- `m_new_devices[id][tid][layer].push_back (pr)` (line 403). -/
def addGeo (nd : NewDevices) (did tid layer : Nat) (pr : Polygon) : NewDevices :=
  updA (fun tg =>
    updA (fun lg =>
      updA (fun v => v.getD [] ++ [pr]) layer (lg.getD []))
      tid (tg.getD []))
    did nd

/-- The extractor state read by `define_terminal`: the resolved input
layers `m_layers` and the accumulated `m_new_devices`. -/
structure DTState where
  layers : List Nat
  new_devices : NewDevices
deriving DecidableEq

/-- `define_terminal` polygon overload (lines 396–404): asserts the
geometry index is within `m_layers`, interns the polygon as a reference and
appends it to `m_new_devices` under the resolved layer index. -/
def define_terminal_poly (ex : DTState) (device_id terminal_id geometry_index : Nat)
    (polygon : Polygon) : Option DTState :=
  if h : geometry_index < ex.layers.length then
    let layer_index := ex.layers.get ⟨geometry_index, h⟩
    some { ex with new_devices := addGeo ex.new_devices device_id terminal_id layer_index polygon }
  else
    none

/-- `define_terminal` box overload (lines 406–409). -/
def define_terminal_box (ex : DTState) (device_id terminal_id geometry_index : Nat)
    (b : Box) : Option DTState :=
  define_terminal_poly ex device_id terminal_id geometry_index (Polygon.ofBox b)

/-- The 2×2 database-unit box centred at a point, `Box (point - dv, point +
dv)` with `dv = (1, 1)`. -/
def pointTerminalBox (p : Int × Int) : Box :=
  ⟨p.1 - 1, p.2 - 1, p.1 + 1, p.2 + 1⟩

/-- `define_terminal` point overload (lines 411–416): one database unit is
added around the point to keep it from vanishing. -/
def define_terminal_point (ex : DTState) (device_id terminal_id geometry_index : Nat)
    (p : Int × Int) : Option DTState :=
  define_terminal_poly ex device_id terminal_id geometry_index
    (Polygon.ofBox ⟨p.1 - 1, p.2 - 1, p.1 + 1, p.2 + 1⟩)

/-! ## Concrete instances used in counterexamples and witnesses -/

/-- A box shape whose bounding box is fully inside the plain clip region
`(0,0)-(100,100)`. -/
def shapeC3 : Shape := Shape.box ⟨10, 10, 20, 20⟩

/-- A trivial external polygon splitter. -/
def splitZero : Polygon → List Polygon := fun _ => []

/-- The unit 2×2 square polygon. -/
def sqPoly : Polygon := Polygon.ofBox ⟨0, 0, 2, 2⟩

/-- A concrete device class. -/
def dcW : DeviceClass := { name := "MOS3", param_ids := [7] }

/-- An extractor state with a device class already registered. -/
def stRegW : ExtractorState :=
  { ext_name := "MOS3", device_class := some dcW, netlist_classes := [dcW]
    has_circuit := true, circuit_devices := [], next_device := 0 }

/-- An extractor state with no device class registered. -/
def stNoClassW : ExtractorState :=
  { stRegW with device_class := none, netlist_classes := [] }

/-- A layout in which cell 5 carries the `DEVICE_CLASS` property (property
set 7 contains name id 3). -/
def lyW : CellPropLayout :=
  { cell_prop := fun i => if i = 5 then 7 else 0
    device_class_name_id := some 3
    prop_sets := fun p => if p = 7 then [(3, "MOS3")] else [] }

/-- Concrete terminal geometry: terminal 0 with one polygon on layer 2. -/
def gW : TermGeo := [(0, [(2, [sqPoly])])]

/-- Two devices with translation-identical geometry. -/
def ndsW : NewDevices := [(1, gW), (2, gW)]

/-- Concrete device positions (equal for both devices). -/
def posW : Nat → Int × Int := fun _ => (3, 4)

/-- Concrete device parameter values. -/
def pvalW : Nat → Nat → Int := fun _ _ => 7

/-- The empty `push_new_devices` state. -/
def emptyPushState : PushState :=
  { device_cells := [], next_cell := 0, next_model := 0
    created := [], assignment := [], insts := [] }

/-- A two-event traversal: one `begin`/`end` pass over `iterA`. -/
def evsW : List Event := [Event.begin_ev iterA, Event.end_ev]

/-- The builder state after the pass `evsW` on a fresh builder. -/
def stW : Builder :=
  { initial_pass := false, ref_iter := iterA
    cell_map := [((0, (∅ : Finset Box)), 0)]
    cells_seen := ∅, cell_stack := [], cm_entry := none
    next_cell := 1, initial_cell := some 0, insts := [] }

/-- A concrete `define_terminal` state. -/
def dtW : DTState := { layers := [4, 9], new_devices := [] }

/-! ## Helper lemmas -/

theorem alookup_cons_self {α β : Type} [DecidableEq α] (m : List (α × β)) (k : α) (v : β) :
    alookup ((k, v) :: m) k = some v := by
  simp [alookup]

theorem alookup_cons_ne {α β : Type} [DecidableEq α] (m : List (α × β)) {k k' : α} (v : β)
    (h : k' ≠ k) : alookup ((k', v) :: m) k = alookup m k := by
  simp [alookup, h]

theorem alookup_eq_none_iff {α β : Type} [DecidableEq α] (m : List (α × β)) (k : α) :
    alookup m k = none ↔ k ∉ m.map Prod.fst := by
  induction m with
  | nil => simp [alookup]
  | cons kv rest ih =>
      by_cases h : kv.1 = k
      · simp [alookup, h]
      · simp [alookup, h, ih, Ne.symm h]

theorem alookup_append_some {α β : Type} [DecidableEq α] {m1 : List (α × β)}
    (m2 : List (α × β)) {k : α} {v : β} (h : alookup m1 k = some v) :
    alookup (m1 ++ m2) k = some v := by
  induction m1 with
  | nil => simp [alookup] at h
  | cons kv rest ih =>
      by_cases hk : kv.1 = k
      · simp [alookup, hk] at h ⊢; exact h
      · simp [alookup, hk] at h ⊢; exact ih h

theorem alookup_append_none {α β : Type} [DecidableEq α] {m1 : List (α × β)}
    (m2 : List (α × β)) {k : α} (h : alookup m1 k = none) :
    alookup (m1 ++ m2) k = alookup m2 k := by
  induction m1 with
  | nil => simp
  | cons kv rest ih =>
      by_cases hk : kv.1 = k
      · simp [alookup, hk] at h
      · simp [alookup, hk] at h ⊢; exact ih h

theorem alookup_append_none_split {α β : Type} [DecidableEq α] {m1 m2 : List (α × β)} {k : α}
    (h : alookup (m1 ++ m2) k = none) :
    alookup m1 k = none ∧ alookup m2 k = none := by
  induction m1 with
  | nil => exact ⟨rfl, h⟩
  | cons kv rest ih =>
      by_cases hk : kv.1 = k
      · simp [alookup, hk] at h
      · simp only [List.cons_append, alookup, hk, if_neg hk] at h ⊢
        exact ih h

theorem mem_foldl_insert (g : Box → Box) (p : Box → Bool) (l : List Box) (s : Finset Box)
    (x : Box) :
    (x ∈ l.foldl (fun acc c => if p c then insert (g c) acc else acc) s) ↔
      x ∈ s ∨ ∃ c ∈ l, p c = true ∧ x = g c := by
  induction l generalizing s with
  | nil => simp
  | cons c cs ih =>
      simp only [List.foldl_cons, List.mem_cons]
      by_cases hc : p c = true
      · rw [if_pos hc, ih]
        simp only [Finset.mem_insert]
        constructor
        · rintro (⟨rfl | hx⟩ | ⟨c', hc', hp, rfl⟩)
          · exact Or.inr ⟨c, Or.inl rfl, hc, rfl⟩
          · exact Or.inl hx
          · exact Or.inr ⟨c', Or.inr hc', hp, rfl⟩
        · rintro (hx | ⟨c', hc' | hc', hp, rfl⟩)
          · exact Or.inl (Or.inr hx)
          · exact Or.inl (Or.inl (by rw [hc']))
          · exact Or.inr ⟨c', hc', hp, rfl⟩
      · rw [if_neg hc, ih]
        constructor
        · rintro (hx | ⟨c', hc', hp, rfl⟩)
          · exact Or.inl hx
          · exact Or.inr ⟨c', Or.inr hc', hp, rfl⟩
        · rintro (hx | ⟨c', hc' | hc', hp, rfl⟩)
          · exact Or.inl hx
          · exact absurd (hc' ▸ hp) hc
          · exact Or.inr ⟨c', hc', hp, rfl⟩

/-! ## Claim C2: the clip-variant computation -/

/-- Claim C2 (amended): characterization of `compute_clip_variant`.  A world
region yields a valid empty variant; when the child bounding box does not
*overlap* the back-transformed region (zero-area intersection, including
mere touching) the variant is invalid; otherwise with no complex region the
variant is the singleton `{B ∩ R'}`, and with a complex region the variant
set consists of `(B ∩ R') ∩ T⁻¹(c)` for the rectangles `c` overlapping `R`
whose back-transformed box overlaps `B ∩ R'`, the variant being invalid
exactly when that set is empty. -/
theorem C2_clip_variant_characterization (B : Box) (tinv : Box → Box) (R : Box)
    (C : Option (List Box)) :
    (R = Box.world → compute_clip_variant B tinv R C = (true, ∅)) ∧
    (R ≠ Box.world → B.overlaps (tinv R) = false →
      compute_clip_variant B tinv R C = (false, ∅)) ∧
    (R ≠ Box.world → B.overlaps (tinv R) = true →
      compute_clip_variant B tinv R none = (true, {Box.inter (tinv R) B})) ∧
    (∀ crs : List Box, R ≠ Box.world → B.overlaps (tinv R) = true →
      (∀ x : Box, x ∈ (compute_clip_variant B tinv R (some crs)).2 ↔
        ∃ c ∈ crs, c.overlaps R = true ∧
          (Box.inter (tinv R) B).overlaps (tinv c) = true ∧
          x = Box.inter (Box.inter (tinv R) B) (tinv c)) ∧
      ((compute_clip_variant B tinv R (some crs)).1 = false ↔
        (compute_clip_variant B tinv R (some crs)).2 = ∅)) := by
  refine ⟨?_, ?_, ?_, ?_⟩
  · intro h
    simp [compute_clip_variant, h]
  · intro hw hov
    simp [compute_clip_variant, hw, hov]
  · intro hw hov
    simp [compute_clip_variant, hw, hov]
  · intro crs hw hov
    have h2 : (compute_clip_variant B tinv R (some crs)).2 =
        (crs.filter (fun cr => cr.overlaps R)).foldl
          (fun acc cr =>
            if (Box.inter (tinv R) B).overlaps (tinv cr) then
              insert (Box.inter (Box.inter (tinv R) B) (tinv cr)) acc
            else acc) ∅ := by
      simp only [compute_clip_variant, if_neg hw, hov, if_true]
      split
      · next h => exact h.symm
      · rfl
    constructor
    · intro x
      rw [h2, mem_foldl_insert (fun c => Box.inter (Box.inter (tinv R) B) (tinv c))
        (fun c => (Box.inter (tinv R) B).overlaps (tinv c)) _ _ x]
      simp only [Finset.not_mem_empty, false_or, List.mem_filter]
      constructor
      · rintro ⟨c, ⟨hc, hov2⟩, hp, rfl⟩
        exact ⟨c, hc, hov2, hp, rfl⟩
      · rintro ⟨c, hc, hov2, hp, rfl⟩
        exact ⟨c, ⟨hc, hov2⟩, hp, rfl⟩
    · simp only [compute_clip_variant, if_neg hw, hov, if_true]
      split
      · next h => simp [h]
      · next h => simp [h]

/-- Claim C2, counterexample to the claim as stated: a child bounding box
that merely *touches* the back-transformed region has a nonempty
intersection with it (the degenerate box `(10,0)-(10,10)`, which contains
the point `(10,5)` of both boxes), yet the computed variant is invalid and
the member is silently excluded, where the claim requires the valid variant
`{B ∩ R'}`. -/
theorem C2_touching_counterexample :
    compute_clip_variant ⟨0, 0, 10, 10⟩ id ⟨10, 0, 20, 10⟩ none = (false, ∅) ∧
    Box.empty (Box.inter (id (⟨10, 0, 20, 10⟩ : Box)) ⟨0, 0, 10, 10⟩) = false ∧
    Box.containsPoint ⟨0, 0, 10, 10⟩ 10 5 = true ∧
    Box.containsPoint (id (⟨10, 0, 20, 10⟩ : Box)) 10 5 = true := by
  decide

/-- Claim C2, witness: the amended theorem applied at a concrete
overlapping configuration. -/
theorem C2_witness :
    compute_clip_variant ⟨0, 0, 10, 10⟩ id ⟨2, 2, 20, 20⟩ none =
      (true, {Box.inter (id (⟨2, 2, 20, 20⟩ : Box)) ⟨0, 0, 10, 10⟩}) :=
  (C2_clip_variant_characterization ⟨0, 0, 10, 10⟩ id ⟨2, 2, 20, 20⟩ none).2.2.1
    (by decide) (by decide)

/-! ## Claim C4: the iterator comparator -/

/-- Claim C4 (code bug): the comparator is *not* a strict three-way
ordering.  `iterA` and `iterB` differ only in their (single-mode) layer,
yet `compare` returns 0 for `(iterA, iterB)` — the C++ returns the bool
`iter1.layer () < iter2.layer ()` converted to int instead of `-1`/`1` — so
it reports two layer-incompatible iterators as equal and violates
antisymmetry. -/
theorem C4_comparator_not_three_way :
    iterA ≠ iterB ∧
    compare_iters iterA iterB = 0 ∧
    compare_iters iterB iterA = 1 ∧
    ¬(compare_iters iterA iterB = -compare_iters iterB iterA) := by
  refine ⟨by decide, by decide, by decide, by decide⟩

/-! ## Claim C3: the clipping receiver's fast path -/

/-- Claim C3 (amended): the generic shape entry point forwards the shape
unchanged with the world region whenever the region is world or `is_inside`
holds; but with *no* complex region `is_inside` is false for every bounded
region — even a bounding box fully inside a plain single-box region is
routed through the clipping path, not forwarded unchanged. -/
theorem C3_fast_path (clip_poly : Polygon → Box → List Polygon) (s : Shape) (region : Box)
    (complex_region : Option (List Box)) :
    ((region = Box.world ∨ is_inside s.bbox region complex_region = true) →
      clip_push clip_poly s region complex_region = [Pushed.sh s Box.world none]) ∧
    (is_inside s.bbox region none = decide (region = Box.world)) := by
  constructor
  · intro h
    simp only [clip_push, if_pos h]
  · by_cases hw : region = Box.world
    · simp [is_inside, hw]
    · have hd : decide (region = Box.world) = false := by simp [hw]
      rw [hd]
      simp only [is_inside, if_neg hw]
      split <;> rfl

/-- Claim C3, counterexample to the claim as stated: a box shape whose
bounding box is fully inside the plain region `(0,0)-(100,100)` (no complex
region) is *not* forwarded unchanged as a shape handle; it is routed through
the clipping path and re-emitted as a clipped box. -/
theorem C3_inside_plain_region_counterexample :
    (Shape.bbox shapeC3).inside ⟨0, 0, 100, 100⟩ = true ∧
    clip_push cpZero shapeC3 ⟨0, 0, 100, 100⟩ none =
      [Pushed.bx ⟨10, 10, 20, 20⟩ Box.world none] ∧
    clip_push cpZero shapeC3 ⟨0, 0, 100, 100⟩ none ≠ [Pushed.sh shapeC3 Box.world none] := by
  refine ⟨by decide, by decide, by decide⟩

/-- Claim C3, witness: the amended theorem applied at the world region and
at a concrete bounded region. -/
theorem C3_witness :
    clip_push cpZero shapeC3 Box.world none = [Pushed.sh shapeC3 Box.world none] ∧
    is_inside (Shape.bbox shapeC3) ⟨0, 0, 100, 100⟩ none =
      decide ((⟨0, 0, 100, 100⟩ : Box) = Box.world) :=
  ⟨(C3_fast_path cpZero shapeC3 Box.world none).1 (Or.inl rfl),
   (C3_fast_path cpZero shapeC3 ⟨0, 0, 100, 100⟩ none).2⟩

/-! ## Claim C6: device cells are skipped -/

theorem extract_loop_skip_aux (ly : CellPropLayout) (cbc : List (Nat × Nat))
    (cells : List Nat) (ci : Nat) (h : is_device_cell ly ci = true) :
    ∀ tr : ExtractTrace,
      ci ∉ tr.circuits_created → ci ∉ tr.circuits_reused → ci ∉ tr.investigated →
      ci ∉ (cells.foldl
        (fun tr c =>
          if is_device_cell ly c then tr
          else
            match alookup cbc c with
            | some _ =>
                { tr with circuits_reused := c :: tr.circuits_reused
                          investigated := c :: tr.investigated }
            | none =>
                { tr with circuits_created := c :: tr.circuits_created
                          investigated := c :: tr.investigated }) tr).circuits_created ∧
      ci ∉ (cells.foldl
        (fun tr c =>
          if is_device_cell ly c then tr
          else
            match alookup cbc c with
            | some _ =>
                { tr with circuits_reused := c :: tr.circuits_reused
                          investigated := c :: tr.investigated }
            | none =>
                { tr with circuits_created := c :: tr.circuits_created
                          investigated := c :: tr.investigated }) tr).circuits_reused ∧
      ci ∉ (cells.foldl
        (fun tr c =>
          if is_device_cell ly c then tr
          else
            match alookup cbc c with
            | some _ =>
                { tr with circuits_reused := c :: tr.circuits_reused
                          investigated := c :: tr.investigated }
            | none =>
                { tr with circuits_created := c :: tr.circuits_created
                          investigated := c :: tr.investigated }) tr).investigated := by
  induction cells with
  | nil => exact fun tr h1 h2 h3 => ⟨h1, h2, h3⟩
  | cons c rest ih =>
      intro tr h1 h2 h3
      simp only [List.foldl_cons]
      by_cases hc : is_device_cell ly c = true
      · rw [if_pos hc]
        exact ih tr h1 h2 h3
      · have hne : ci ≠ c := fun he => hc (he ▸ h)
        rw [if_neg hc]
        cases halo : alookup cbc c with
        | some v =>
            exact ih _ h1 (by simp [hne, h2]) (by simp [hne, h3])
        | none =>
            exact ih _ (by simp [hne, h1]) h2 (by simp [hne, h3])

/-- Claim C6: during the per-cell loop of `extract_without_initialize`,
every reachable cell whose cell properties carry the `DEVICE_CLASS`
property name is skipped entirely: no circuit is created or reused for it
and its clusters are not investigated. -/
theorem C6_device_cells_skipped (ly : CellPropLayout) (cbc : List (Nat × Nat))
    (cells : List Nat) (ci : Nat) (_hmem : ci ∈ cells)
    (h : is_device_cell ly ci = true) :
    ci ∉ (extract_loop ly cbc cells).circuits_created ∧
    ci ∉ (extract_loop ly cbc cells).circuits_reused ∧
    ci ∉ (extract_loop ly cbc cells).investigated := by
  have := extract_loop_skip_aux ly cbc cells ci h ⟨[], [], []⟩
    (by simp) (by simp) (by simp)
  exact this

/-- Claim C6, witness: cell 5 of `lyW` carries the `DEVICE_CLASS` property
and is skipped by the loop over cells `[4, 5, 6]`. -/
theorem C6_witness :
    5 ∉ (extract_loop lyW [(4, 0)] [4, 5, 6]).circuits_created ∧
    5 ∉ (extract_loop lyW [(4, 0)] [4, 5, 6]).circuits_reused ∧
    5 ∉ (extract_loop lyW [(4, 0)] [4, 5, 6]).investigated :=
  C6_device_cells_skipped lyW [(4, 0)] [4, 5, 6] 5 (by decide) (by decide)

/-! ## Claim C7: registration errors -/

/-- Claim C7: `register_device_class` fails with a fatal exception when a
device class is already registered, and `create_device` fails when none is
registered; in both failing cases no mutated state escapes (the netlist,
the current circuit and the registered class visible to the caller are the
unchanged originals). -/
theorem C7_registration_errors (st : ExtractorState) (c : ExtractorState → DeviceClass)
    (c0 : DeviceClass) :
    (st.device_class = some c0 →
      register_device_class st (c st) = Except.error "Device class already set" ∧
      ∀ st1 : ExtractorState, register_device_class st (c st) ≠ Except.ok st1) ∧
    (st.device_class = none →
      create_device st = Except.error "No device class registered" ∧
      ∀ r : ExtractorState × Nat, create_device st ≠ Except.ok r) := by
  constructor
  · intro h
    have hs : st.device_class.isSome = true := by rw [h]; rfl
    constructor
    · simp [register_device_class, hs]
    · intro st1
      simp [register_device_class, hs]
  · intro h
    constructor
    · simp [create_device, h]
    · intro r
      simp [create_device, h]

/-- Claim C7, witness: the concrete already-registered state and the
concrete unregistered state. -/
theorem C7_witness :
    register_device_class stRegW dcW = Except.error "Device class already set" ∧
    create_device stNoClassW = Except.error "No device class registered" :=
  ⟨((C7_registration_errors stRegW (fun _ => dcW) dcW).1 (by decide)).1,
   ((C7_registration_errors stNoClassW (fun _ => dcW) dcW).2 (by decide)).1⟩

/-! ## Claim C9: the point overload of define_terminal -/

/-- Claim C9: the point overload of `define_terminal` records the 2×2
database-unit square box spanning `point - (1,1)` to `point + (1,1)` — it
behaves exactly as the box (and hence polygon) overload applied to that
box — and that square is never degenerate: it has 4 vertices and area 4
(twice the signed area is 8). -/
theorem C9_point_terminal (ex : DTState) (device_id terminal_id geometry_index : Nat)
    (p : Int × Int) :
    define_terminal_point ex device_id terminal_id geometry_index p =
      define_terminal_box ex device_id terminal_id geometry_index (pointTerminalBox p) ∧
    define_terminal_box ex device_id terminal_id geometry_index (pointTerminalBox p) =
      define_terminal_poly ex device_id terminal_id geometry_index
        (Polygon.ofBox (pointTerminalBox p)) ∧
    (pointTerminalBox p).empty = false ∧
    Polygon.area2 (Polygon.ofBox (pointTerminalBox p)) = 8 ∧
    Polygon.vertexCount (Polygon.ofBox (pointTerminalBox p)) = 4 := by
  refine ⟨rfl, rfl, ?_, ?_, rfl⟩
  · simp only [Box.empty, pointTerminalBox, Bool.or_eq_false_iff, decide_eq_false_iff_not,
      not_lt]
    omega
  · simp only [Polygon.area2, Polygon.ofBox, pointTerminalBox, shoelace2, shoelaceAux,
      List.map_nil, List.sum_nil]
    ring

/-! ## Claim C8: the reducing receiver bounds -/

theorem joinOpts_mem {l : List (Option (List Polygon))} {out : List Polygon}
    (h : joinOpts l = some out) {q : Polygon} (hq : q ∈ out) :
    ∃ ys : List Polygon, some ys ∈ l ∧ q ∈ ys := by
  induction l generalizing out with
  | nil =>
      simp only [joinOpts, Option.some.injEq] at h
      subst h
      simp at hq
  | cons o rest ih =>
      cases o with
      | none => simp [joinOpts] at h
      | some xs =>
          cases hrest : joinOpts rest with
          | none => rw [joinOpts, hrest] at h; simp at h
          | some out' =>
              rw [joinOpts, hrest] at h
              have hout : xs ++ out' = out := by simpa using h
              subst hout
              rcases List.mem_append.mp hq with hx | hx
              · exact ⟨xs, List.mem_cons_self _ _, hx⟩
              · obtain ⟨ys, hys, hqy⟩ := ih hrest hx
                exact ⟨ys, List.mem_cons_of_mem _ hys, hqy⟩

/-- Claim C8: whenever the (fuel-bounded) reduction recursion of the
reducing receiver terminates, every polygon it passes downstream has at
most `max_vertex_count` vertices and a bounding-box-to-area quotient of at
most `area_ratio`; violating polygons are recursively split by the external
`split_polygon` and never emitted themselves. -/
theorem C8_reduce_bounds (split : Polygon → List Polygon) (max_vertex_count : Nat)
    (aRatioMax : ℚ) :
    ∀ (fuel : Nat) (poly : Polygon) (out : List Polygon),
      reduce split max_vertex_count aRatioMax fuel poly = some out →
      ∀ q ∈ out, q.vertexCount ≤ max_vertex_count ∧ polyAreaQuotient q ≤ aRatioMax := by
  intro fuel
  induction fuel with
  | zero => intro poly out h; simp [reduce] at h
  | succ fuel ih =>
      intro poly out h q hq
      rw [reduce] at h
      by_cases hc : poly.vertexCount > max_vertex_count ∨ polyAreaQuotient poly > aRatioMax
      · rw [if_pos hc] at h
        obtain ⟨ys, hys, hqy⟩ := joinOpts_mem h hq
        obtain ⟨p', hp', hred⟩ := List.mem_map.mp hys
        exact ih p' ys hred q hqy
      · rw [if_neg hc] at h
        obtain rfl : [poly] = out := by
          simpa using h
        push_neg at hc
        obtain rfl : q = poly := by simpa using hq
        exact ⟨hc.1, hc.2⟩

/-- Claim C8, witness: the 2×2 square satisfies both bounds and is emitted
unchanged by the reduction with fuel 1. -/
theorem C8_witness :
    Polygon.vertexCount sqPoly ≤ 10 ∧ polyAreaQuotient sqPoly ≤ 100 :=
  C8_reduce_bounds splitZero 10 100 1 sqPoly [sqPoly]
    (by
      have hq : polyAreaQuotient sqPoly = 1 := by
        norm_num [polyAreaQuotient, sqPoly, Polygon.ofBox, Polygon.box, Polygon.area,
          Polygon.area2, Box.area, Box.empty, shoelace2, shoelaceAux]
      have hvc : Polygon.vertexCount sqPoly = 4 := rfl
      rw [reduce, if_neg]
      rw [hq, hvc]
      norm_num)
    sqPoly (by simp)

/-! ## Claim C10: device-cell shape and cluster coordinate frames -/

/-- Claim C10: when `push_new_devices` creates a new device cell, the
shapes inserted into the device cell's containers are the terminal polygon
references translated by minus the device displacement, while the polygon
references added to the freshly created local cluster are the untranslated
originals: per terminal, the shape list is exactly the `-disp` translate of
the cluster list, and the cluster lists are exactly the input geometry. -/
theorem C10_device_cell_frames (dc : DeviceClass) (pos : Nat → Int × Int)
    (pval : Nat → Nat → Int) (st : PushState) (d : Nat × TermGeo)
    (hfresh : alookup st.device_cells (keyOfDevice dc pos pval d) = none) :
    ∃ r : DeviceCellRec,
      (pushOneDevice dc pos pval st d).created = r :: st.created ∧
      r.terms.map TermResult.cluster =
        d.2.map (fun t => (t.2.map (fun l => l.2.map (fun s => (l.1, s)))).flatten) ∧
      ∀ tr ∈ r.terms,
        tr.shapes = tr.cluster.map
          (fun ls => (ls.1, Polygon.translate (-(pos d.1).1, -(pos d.1).2) ls.2)) := by
  refine ⟨{ index := st.next_cell, name := "D$" ++ dc.name, hasDeviceClassProp := true
            terms := processTermGeo (pos d.1) d.2 }, ?_, ?_, ?_⟩
  · simp only [pushOneDevice, hfresh]
  · simp [processTermGeo, List.map_map]
  · intro tr htr
    simp only [processTermGeo, List.mem_map] at htr
    obtain ⟨t, _ht, rfl⟩ := htr
    simp only [List.map_flatten, List.map_map]
    refine congrArg List.flatten (List.map_congr_left ?_)
    intro l _
    simp [Function.comp, List.map_map]

/-- Claim C10, witness: a concrete fresh device built from `gW` at
displacement `(3, 4)`. -/
theorem C10_witness :
    ∃ r : DeviceCellRec,
      (pushOneDevice dcW posW pvalW emptyPushState (1, gW)).created =
        r :: emptyPushState.created ∧
      r.terms.map TermResult.cluster =
        gW.map (fun t => (t.2.map (fun l => l.2.map (fun s => (l.1, s)))).flatten) ∧
      ∀ tr ∈ r.terms,
        tr.shapes = tr.cluster.map
          (fun ls => (ls.1, Polygon.translate (-(posW 1).1, -(posW 1).2) ls.2)) :=
  C10_device_cell_frames dcW posW pvalW emptyPushState (1, gW) (by decide)

/-! ## Claim C5: device-cell canonicity -/

theorem pushOneDevice_lookup_mono (dc : DeviceClass) (pos : Nat → Int × Int)
    (pval : Nat → Nat → Int) (st : PushState) (d : Nat × TermGeo)
    {k : DeviceCellKey} {v : Nat × Nat} (h : alookup st.device_cells k = some v) :
    alookup (pushOneDevice dc pos pval st d).device_cells k = some v := by
  cases hl : alookup st.device_cells (keyOfDevice dc pos pval d) with
  | some cm => simpa [pushOneDevice, hl] using h
  | none =>
      have hne : keyOfDevice dc pos pval d ≠ k := by
        intro he
        rw [he, h] at hl
        exact Option.noConfusion hl
      simp only [pushOneDevice, hl]
      rw [alookup_cons_ne _ _ hne]
      exact h

theorem pushOneDevice_assignment_mono (dc : DeviceClass) (pos : Nat → Int × Int)
    (pval : Nat → Nat → Int) (st : PushState) (d : Nat × TermGeo)
    {x : Nat × (Nat × Nat)} (h : x ∈ st.assignment) :
    x ∈ (pushOneDevice dc pos pval st d).assignment := by
  cases hl : alookup st.device_cells (keyOfDevice dc pos pval d) with
  | some cm =>
      simp only [pushOneDevice, hl]
      exact List.mem_cons_of_mem _ h
  | none =>
      simp only [pushOneDevice, hl]
      exact List.mem_cons_of_mem _ h

theorem pushOneDevice_created_mono (dc : DeviceClass) (pos : Nat → Int × Int)
    (pval : Nat → Nat → Int) (st : PushState) (d : Nat × TermGeo)
    {r : DeviceCellRec} (h : r ∈ st.created) :
    r ∈ (pushOneDevice dc pos pval st d).created := by
  cases hl : alookup st.device_cells (keyOfDevice dc pos pval d) with
  | some cm => simpa [pushOneDevice, hl] using h
  | none =>
      simp only [pushOneDevice, hl]
      exact List.mem_cons_of_mem _ h

theorem pnd_cons (dc : DeviceClass) (pos : Nat → Int × Int) (pval : Nat → Nat → Int)
    (st : PushState) (d : Nat × TermGeo) (rest : NewDevices) :
    push_new_devices dc pos pval st (d :: rest) =
      push_new_devices dc pos pval (pushOneDevice dc pos pval st d) rest := rfl

theorem pnd_lookup_mono (dc : DeviceClass) (pos : Nat → Int × Int)
    (pval : Nat → Nat → Int) (nds : NewDevices) :
    ∀ (st : PushState) (k : DeviceCellKey) (v : Nat × Nat),
      alookup st.device_cells k = some v →
      alookup (push_new_devices dc pos pval st nds).device_cells k = some v := by
  induction nds with
  | nil => intro st k v h; exact h
  | cons d rest ih =>
      intro st k v h
      rw [pnd_cons]
      exact ih _ k v (pushOneDevice_lookup_mono dc pos pval st d h)

theorem pnd_assignment_mono (dc : DeviceClass) (pos : Nat → Int × Int)
    (pval : Nat → Nat → Int) (nds : NewDevices) :
    ∀ (st : PushState) (x : Nat × (Nat × Nat)),
      x ∈ st.assignment → x ∈ (push_new_devices dc pos pval st nds).assignment := by
  induction nds with
  | nil => intro st x h; exact h
  | cons d rest ih =>
      intro st x h
      rw [pnd_cons]
      exact ih _ x (pushOneDevice_assignment_mono dc pos pval st d h)

theorem pnd_processed (dc : DeviceClass) (pos : Nat → Int × Int)
    (pval : Nat → Nat → Int) (nds : NewDevices) :
    ∀ (st : PushState), ∀ d ∈ nds,
      ∃ v : Nat × Nat,
        (d.1, v) ∈ (push_new_devices dc pos pval st nds).assignment ∧
        alookup (push_new_devices dc pos pval st nds).device_cells
          (keyOfDevice dc pos pval d) = some v := by
  induction nds with
  | nil => intro st d hd; simp at hd
  | cons d0 rest ih =>
      intro st d hd
      rcases List.mem_cons.mp hd with he | hd'
      · subst he
        have hstep : ∃ v : Nat × Nat,
            (d.1, v) ∈ (pushOneDevice dc pos pval st d).assignment ∧
            alookup (pushOneDevice dc pos pval st d).device_cells
              (keyOfDevice dc pos pval d) = some v := by
          cases hl : alookup st.device_cells (keyOfDevice dc pos pval d) with
          | some cm =>
              refine ⟨cm, ?_, ?_⟩
              · simp only [pushOneDevice, hl]
                exact List.mem_cons_self _ _
              · simp [pushOneDevice, hl]
          | none =>
              refine ⟨(st.next_cell, st.next_model), ?_, ?_⟩
              · simp only [pushOneDevice, hl]
                exact List.mem_cons_self _ _
              · simp only [pushOneDevice, hl]
                exact alookup_cons_self _ _ _
        obtain ⟨v, hmem, hlk⟩ := hstep
        rw [pnd_cons]
        exact ⟨v, pnd_assignment_mono dc pos pval rest _ _ hmem,
          pnd_lookup_mono dc pos pval rest _ _ v hlk⟩
      · rw [pnd_cons]
        exact ih _ d hd'

theorem pnd_track (dc : DeviceClass) (pos : Nat → Int × Int) (pval : Nat → Nat → Int)
    (st0 : PushState) (nds : NewDevices) :
    ∀ (st : PushState),
      (∀ (k : DeviceCellKey) (v : Nat × Nat), alookup st.device_cells k = some v →
        alookup st0.device_cells k = some v ∨
        ∃ r ∈ st.created, r.name = "D$" ++ dc.name ∧ r.hasDeviceClassProp = true ∧
          r.index = v.1) →
      ∀ (k : DeviceCellKey) (v : Nat × Nat),
        alookup (push_new_devices dc pos pval st nds).device_cells k = some v →
        alookup st0.device_cells k = some v ∨
        ∃ r ∈ (push_new_devices dc pos pval st nds).created,
          r.name = "D$" ++ dc.name ∧ r.hasDeviceClassProp = true ∧ r.index = v.1 := by
  induction nds with
  | nil => intro st h; exact h
  | cons d rest ih =>
      intro st h
      rw [pnd_cons]
      apply ih
      intro k v hk
      cases hl : alookup st.device_cells (keyOfDevice dc pos pval d) with
      | some cm =>
          simp only [pushOneDevice, hl] at hk ⊢
          rcases h k v hk with h0 | ⟨r, hr, hp⟩
          · exact Or.inl h0
          · exact Or.inr ⟨r, hr, hp⟩
      | none =>
          simp only [pushOneDevice, hl] at hk ⊢
          by_cases hke : keyOfDevice dc pos pval d = k
          · subst hke
            rw [alookup_cons_self] at hk
            injection hk with hv
            subst hv
            exact Or.inr ⟨_, List.mem_cons_self _ _, rfl, rfl, rfl⟩
          · rw [alookup_cons_ne _ _ hke] at hk
            rcases h k v hk with h0 | ⟨r, hr, hp⟩
            · exact Or.inl h0
            · exact Or.inr ⟨r, List.mem_cons_of_mem _ hr, hp⟩

/-- Claim C5: device-cell canonicity.  Within one `push_new_devices` run,
any two devices with equal device-cell keys (normalised geometry plus
parameter map) are attached to the same (target cell, device model) pair,
namely the registry's value at their common key; and a device whose key is
fresh gets a newly created cell named `D$<device_class_name>` tagged with
the `DEVICE_CLASS` property. -/
theorem C5_device_cell_canonicity (dc : DeviceClass) (pos : Nat → Int × Int)
    (pval : Nat → Nat → Int) (st0 : PushState) (nds : NewDevices) :
    (∀ d1 ∈ nds, ∀ d2 ∈ nds,
       keyOfDevice dc pos pval d1 = keyOfDevice dc pos pval d2 →
       ∃ v : Nat × Nat,
         (d1.1, v) ∈ (push_new_devices dc pos pval st0 nds).assignment ∧
         (d2.1, v) ∈ (push_new_devices dc pos pval st0 nds).assignment ∧
         alookup (push_new_devices dc pos pval st0 nds).device_cells
           (keyOfDevice dc pos pval d1) = some v) ∧
    (∀ d ∈ nds, alookup st0.device_cells (keyOfDevice dc pos pval d) = none →
       ∃ r ∈ (push_new_devices dc pos pval st0 nds).created, ∃ m : Nat,
         r.name = "D$" ++ dc.name ∧ r.hasDeviceClassProp = true ∧
         alookup (push_new_devices dc pos pval st0 nds).device_cells
           (keyOfDevice dc pos pval d) = some (r.index, m)) := by
  constructor
  · intro d1 h1 d2 h2 hkey
    obtain ⟨v1, hm1, hl1⟩ := pnd_processed dc pos pval nds st0 d1 h1
    obtain ⟨v2, hm2, hl2⟩ := pnd_processed dc pos pval nds st0 d2 h2
    rw [hkey, hl2] at hl1
    have hv : v2 = v1 := by injection hl1
    exact ⟨v1, hm1, hv ▸ hm2, by rw [hkey, hl2, hv]⟩
  · intro d hd h0
    obtain ⟨v, _hmem, hlk⟩ := pnd_processed dc pos pval nds st0 d hd
    rcases pnd_track dc pos pval st0 nds st0 (fun k v hk => Or.inl hk) _ _ hlk with
      hleft | ⟨r, hr, hname, htag, hidx⟩
    · rw [h0] at hleft
      exact Option.noConfusion hleft
    · refine ⟨r, hr, v.2, hname, htag, ?_⟩
      rw [hlk, hidx]

/-- Claim C5, witness: the two translation-identical devices of `ndsW`
share one registry value. -/
theorem C5_witness :
    ∃ v : Nat × Nat,
      (((1, gW) : Nat × TermGeo).1, v) ∈
        (push_new_devices dcW posW pvalW emptyPushState ndsW).assignment ∧
      (((2, gW) : Nat × TermGeo).1, v) ∈
        (push_new_devices dcW posW pvalW emptyPushState ndsW).assignment ∧
      alookup (push_new_devices dcW posW pvalW emptyPushState ndsW).device_cells
        (keyOfDevice dcW posW pvalW (1, gW)) = some v :=
  (C5_device_cell_canonicity dcW posW pvalW emptyPushState ndsW).1 (1, gW) (by decide)
    (2, gW) (by decide) (by decide)

/-! ## Claim C1: hierarchy-builder pass behaviour -/

theorem alookup_cons_none_split {α β : Type} [DecidableEq α] {k x : α} {v : β}
    {m : List (α × β)} (h : alookup ((k, v) :: m) x = none) :
    k ≠ x ∧ alookup m x = none := by
  by_cases hk : k = x
  · rw [hk] at h
    rw [alookup_cons_self] at h
    exact absurd h (by simp)
  · rw [alookup_cons_ne _ _ hk] at h
    exact ⟨hk, h⟩

theorem compare_zero_top (a b : Iter) (h : compare_iters a b = 0) :
    a.top_cell = b.top_cell := by
  by_cases h2 : a.top_cell = b.top_cell
  · exact h2
  · exfalso
    by_cases h1 : a.layout = b.layout
    · unfold compare_iters at h
      rw [if_neg (fun hc => hc h1), if_pos h2] at h
      split_ifs at h
      all_goals omega
    · unfold compare_iters at h
      rw [if_pos h1] at h
      split_ifs at h
      all_goals omega

theorem hb_begin_core_post (st : Builder) (iter : Iter) (st' : Builder)
    (h : hb_begin_core st iter = some st') :
    st'.ref_iter = st.ref_iter ∧ st'.initial_pass = st.initial_pass ∧
    st'.insts = st.insts ∧
    alookup st'.cell_map (iter.top_cell, (∅ : Finset Box)) ≠ none ∧
    ((st'.cell_map = st.cell_map ∧ st'.next_cell = st.next_cell) ∨
     (∃ k : CellKey, alookup st.cell_map k = none ∧
        st'.cell_map = (k, st.next_cell) :: st.cell_map ∧
        st'.next_cell = st.next_cell + 1)) := by
  cases hl : alookup st.cell_map (iter.top_cell, (∅ : Finset Box)) with
  | some c =>
      simp only [hb_begin_core, lookupOrCreate, hl] at h
      injection h with h2
      subst h2
      refine ⟨rfl, rfl, rfl, ?_, Or.inl ⟨rfl, rfl⟩⟩
      simp [hl]
  | none =>
      simp only [hb_begin_core, lookupOrCreate, hl] at h
      injection h with h2
      subst h2
      refine ⟨rfl, rfl, rfl, ?_, Or.inr ⟨(iter.top_cell, ∅), hl, rfl, rfl⟩⟩
      rw [alookup_cons_self]
      simp

theorem hb_begin_growth (st : Builder) (iter : Iter) (st' : Builder)
    (h : hb_begin st iter = some st') :
    (st'.cell_map = st.cell_map ∧ st'.next_cell = st.next_cell) ∨
    (∃ k : CellKey, alookup st.cell_map k = none ∧
       st'.cell_map = (k, st.next_cell) :: st.cell_map ∧
       st'.next_cell = st.next_cell + 1) := by
  unfold hb_begin at h
  cases hip : st.initial_pass with
  | true =>
      rw [hip] at h
      simp only [if_pos rfl] at h
      exact (hb_begin_core_post _ iter st' h).2.2.2.2
  | false =>
      rw [hip] at h
      simp only [Bool.false_eq_true, if_neg Bool.false_ne_true] at h
      by_cases hc : compare_iters st.ref_iter iter = 0
      · rw [if_pos hc] at h
        exact (hb_begin_core_post st iter st' h).2.2.2.2
      · rw [if_neg hc] at h
        exact absurd h (by simp)

theorem hb_new_inst_growth (st : Builder) (child : Nat) (all : Bool) (r : Builder × NIMode)
    (h : hb_new_inst st child all = some r) :
    (r.1.cell_map = st.cell_map ∧ r.1.next_cell = st.next_cell) ∨
    (∃ k : CellKey, alookup st.cell_map k = none ∧
       r.1.cell_map = (k, st.next_cell) :: st.cell_map ∧
       r.1.next_cell = st.next_cell + 1) := by
  cases all with
  | false =>
      simp only [hb_new_inst, Bool.false_eq_true, if_neg Bool.false_ne_true] at h
      obtain rfl : (st, NIMode.all) = r := by injection h
      exact Or.inl ⟨rfl, rfl⟩
  | true =>
      simp only [hb_new_inst, if_pos rfl] at h
      cases hip : st.initial_pass with
      | false =>
          rw [hip] at h
          simp only [Bool.false_eq_true, if_neg Bool.false_ne_true] at h
          obtain rfl : _ = r := by injection h
          exact Or.inl ⟨rfl, rfl⟩
      | true =>
          rw [hip] at h
          simp only [if_pos rfl] at h
          cases hstack : st.cell_stack with
          | nil => rw [hstack] at h; exact absurd h (by simp)
          | cons parent rest =>
              rw [hstack] at h
              cases hl : alookup st.cell_map (child, (∅ : Finset Box)) with
              | some c =>
                  simp only [lookupOrCreate, hl] at h
                  obtain rfl : _ = r := by injection h
                  exact Or.inl ⟨rfl, rfl⟩
              | none =>
                  simp only [lookupOrCreate, hl] at h
                  obtain rfl : _ = r := by injection h
                  exact Or.inr ⟨(child, ∅), hl, rfl, rfl⟩

theorem hb_new_inst_member_growth (st : Builder) (child : Nat) (child_bbox : Box)
    (tinv : Box → Box) (region : Box) (complex_region : Option (List Box)) (all : Bool)
    (r : Builder × Bool)
    (h : hb_new_inst_member st child child_bbox tinv region complex_region all = some r) :
    (r.1.cell_map = st.cell_map ∧ r.1.next_cell = st.next_cell) ∨
    (∃ k : CellKey, alookup st.cell_map k = none ∧
       r.1.cell_map = (k, st.next_cell) :: st.cell_map ∧
       r.1.next_cell = st.next_cell + 1) := by
  cases all with
  | true =>
      simp only [hb_new_inst_member, if_pos rfl] at h
      obtain rfl : (st, true) = r := by injection h
      exact Or.inl ⟨rfl, rfl⟩
  | false =>
      simp only [hb_new_inst_member, Bool.false_eq_true,
        if_neg Bool.false_ne_true] at h
      cases hcv : (compute_clip_variant child_bbox tinv region complex_region).1 with
      | false =>
          rw [hcv] at h
          simp only [if_pos rfl] at h
          obtain rfl : (st, false) = r := by injection h
          exact Or.inl ⟨rfl, rfl⟩
      | true =>
          rw [hcv] at h
          simp only [if_neg (fun hc : (true : Bool) = false => Bool.noConfusion hc)] at h
          cases hip : st.initial_pass with
          | false =>
              rw [hip] at h
              simp only [Bool.false_eq_true, if_neg Bool.false_ne_true] at h
              obtain rfl : _ = r := by injection h
              exact Or.inl ⟨rfl, rfl⟩
          | true =>
              rw [hip] at h
              simp only [if_pos rfl] at h
              cases hstack : st.cell_stack with
              | nil => rw [hstack] at h; exact absurd h (by simp)
              | cons parent rest =>
                  rw [hstack] at h
                  cases hl : alookup st.cell_map
                      (child, (compute_clip_variant child_bbox tinv region complex_region).2) with
                  | some c =>
                      simp only [lookupOrCreate, hl] at h
                      obtain rfl : _ = r := by injection h
                      exact Or.inl ⟨rfl, rfl⟩
                  | none =>
                      simp only [lookupOrCreate, hl] at h
                      obtain rfl : _ = r := by injection h
                      exact Or.inr
                        ⟨(child, (compute_clip_variant child_bbox tinv region complex_region).2),
                          hl, rfl, rfl⟩

theorem step_growth (e : Event) (st st' : Builder) (h : step e st = some st') :
    (st'.cell_map = st.cell_map ∧ st'.next_cell = st.next_cell) ∨
    (∃ k : CellKey, alookup st.cell_map k = none ∧
       st'.cell_map = (k, st.next_cell) :: st.cell_map ∧
       st'.next_cell = st.next_cell + 1) := by
  cases e with
  | begin_ev iter => exact hb_begin_growth st iter st' h
  | end_ev =>
      simp only [step] at h
      unfold hb_end at h
      split_ifs at h
      injection h with h2
      subst h2
      exact Or.inl ⟨rfl, rfl⟩
  | enter_cell =>
      simp only [step] at h
      unfold hb_enter_cell at h
      cases hce : st.cm_entry with
      | none => rw [hce] at h; exact absurd h (by simp)
      | some e0 =>
          rw [hce] at h
          injection h with h2
          subst h2
          exact Or.inl ⟨rfl, rfl⟩
  | leave_cell =>
      simp only [step] at h
      unfold hb_leave_cell at h
      injection h with h2
      subst h2
      exact Or.inl ⟨rfl, rfl⟩
  | new_inst child all =>
      simp only [step, Option.map_eq_some'] at h
      obtain ⟨r, hr, hst⟩ := h
      subst hst
      exact hb_new_inst_growth st child all r hr
  | new_inst_member child bb tinv region cr all =>
      simp only [step, Option.map_eq_some'] at h
      obtain ⟨r, hr, hst⟩ := h
      subst hst
      exact hb_new_inst_member_growth st child bb tinv region cr all r hr
  | shape_ev =>
      simp only [step] at h
      injection h with h2
      subst h2
      exact Or.inl ⟨rfl, rfl⟩

theorem run_growth : ∀ (evs : List Event) (st st' : Builder), run evs st = some st' →
    ∃ new : List (CellKey × Nat),
      st'.cell_map = new ++ st.cell_map ∧
      st'.next_cell = st.next_cell + new.length ∧
      (new.map Prod.fst).Nodup ∧
      ∀ k ∈ new.map Prod.fst, alookup st.cell_map k = none := by
  intro evs
  induction evs with
  | nil =>
      intro st st' h
      injection h with h2
      subst h2
      exact ⟨[], rfl, rfl, List.nodup_nil, by simp⟩
  | cons e es ih =>
      intro st st' h
      cases hs : step e st with
      | none => rw [run, hs] at h; exact absurd h (by simp)
      | some st1 =>
          rw [run, hs] at h
          obtain ⟨new, hmap, hnext, hnd, habs⟩ := ih st1 st' h
          rcases step_growth e st st1 hs with ⟨hm, hn⟩ | ⟨k, hkn, hm, hn⟩
          · refine ⟨new, by rw [hmap, hm], by rw [hnext, hn], hnd, ?_⟩
            intro k hk
            have := habs k hk
            rw [hm] at this
            exact this
          · refine ⟨new ++ [(k, st.next_cell)], ?_, ?_, ?_, ?_⟩
            · rw [hmap, hm, List.append_assoc]
              rfl
            · rw [hnext, hn, List.length_append]
              simp
              omega
            · rw [List.map_append]
              refine List.Nodup.append hnd (by simp) ?_
              intro x hx hx'
              simp only [List.map_cons, List.map_nil, List.mem_singleton] at hx'
              subst hx'
              have := habs x hx
              rw [hm] at this
              exact absurd (alookup_cons_self st.cell_map x st.next_cell)
                (by rw [this]; simp)
            · intro x hx
              rw [List.map_append] at hx
              rcases List.mem_append.mp hx with hx1 | hx1
              · have := habs x hx1
                rw [hm] at this
                exact (alookup_cons_none_split this).2
              · simp only [List.map_cons, List.map_nil, List.mem_singleton] at hx1
                subst hx1
                exact hkn

theorem step_lookup_mono (e : Event) (st st' : Builder) (h : step e st = some st')
    {k : CellKey} {v : Nat} (hk : alookup st.cell_map k = some v) :
    alookup st'.cell_map k = some v := by
  rcases step_growth e st st' h with ⟨hm, _⟩ | ⟨k', hk', hm, _⟩
  · rw [hm]
    exact hk
  · rw [hm]
    have hne : k' ≠ k := by
      intro he
      rw [he, hk] at hk'
      exact Option.noConfusion hk'
    rw [alookup_cons_ne _ _ hne]
    exact hk

theorem step_lookup_ne_none (e : Event) (st st' : Builder) (h : step e st = some st')
    {k : CellKey} (hk : alookup st.cell_map k ≠ none) :
    alookup st'.cell_map k ≠ none := by
  cases hx : alookup st.cell_map k with
  | none => exact absurd hx hk
  | some v =>
      rw [step_lookup_mono e st st' h hx]
      simp

theorem hb_begin_inv (st : Builder) (iter : Iter) (st' : Builder)
    (_hinv : (st.initial_pass = false ∨ st.cell_stack ≠ [] ∨ st.cm_entry ≠ none) →
      alookup st.cell_map (st.ref_iter.top_cell, (∅ : Finset Box)) ≠ none)
    (h : hb_begin st iter = some st') :
    alookup st'.cell_map (st'.ref_iter.top_cell, (∅ : Finset Box)) ≠ none := by
  unfold hb_begin at h
  cases hip : st.initial_pass with
  | true =>
      rw [hip] at h
      simp only [if_pos rfl] at h
      obtain ⟨href, _, _, hlk, _⟩ := hb_begin_core_post _ iter st' h
      rw [href]
      exact hlk
  | false =>
      rw [hip] at h
      simp only [Bool.false_eq_true, if_neg Bool.false_ne_true] at h
      by_cases hc : compare_iters st.ref_iter iter = 0
      · rw [if_pos hc] at h
        obtain ⟨href, _, _, hlk, _⟩ := hb_begin_core_post st iter st' h
        rw [href]
        show alookup st'.cell_map (st.ref_iter.top_cell, (∅ : Finset Box)) ≠ none
        rw [compare_zero_top _ _ hc]
        exact hlk
      · rw [if_neg hc] at h
        exact absurd h (by simp)

theorem hb_new_inst_post (st : Builder) (child : Nat) (all : Bool) (r : Builder × NIMode)
    (h : hb_new_inst st child all = some r) :
    r.1.ref_iter = st.ref_iter ∧
    ((st.initial_pass = false ∨ st.cell_stack ≠ []) ∨ r.1 = st) := by
  cases all with
  | false =>
      simp only [hb_new_inst, Bool.false_eq_true, if_neg Bool.false_ne_true] at h
      obtain rfl : (st, NIMode.all) = r := by injection h
      exact ⟨rfl, Or.inr rfl⟩
  | true =>
      simp only [hb_new_inst, if_pos rfl] at h
      cases hip : st.initial_pass with
      | false =>
          rw [hip] at h
          simp only [Bool.false_eq_true, if_neg Bool.false_ne_true] at h
          obtain rfl : _ = r := by injection h
          exact ⟨rfl, Or.inl (Or.inl rfl)⟩
      | true =>
          rw [hip] at h
          simp only [if_pos rfl] at h
          cases hstack : st.cell_stack with
          | nil => rw [hstack] at h; exact absurd h (by simp)
          | cons parent rest =>
              rw [hstack] at h
              cases hl : alookup st.cell_map (child, (∅ : Finset Box)) with
              | some c =>
                  simp only [lookupOrCreate, hl] at h
                  obtain rfl : _ = r := by injection h
                  exact ⟨rfl, Or.inl (Or.inr (by simp [hstack]))⟩
              | none =>
                  simp only [lookupOrCreate, hl] at h
                  obtain rfl : _ = r := by injection h
                  exact ⟨rfl, Or.inl (Or.inr (by simp [hstack]))⟩

theorem hb_new_inst_member_post (st : Builder) (child : Nat) (child_bbox : Box)
    (tinv : Box → Box) (region : Box) (complex_region : Option (List Box)) (all : Bool)
    (r : Builder × Bool)
    (h : hb_new_inst_member st child child_bbox tinv region complex_region all = some r) :
    r.1.ref_iter = st.ref_iter ∧
    ((st.initial_pass = false ∨ st.cell_stack ≠ []) ∨ r.1 = st) := by
  cases all with
  | true =>
      simp only [hb_new_inst_member, if_pos rfl] at h
      obtain rfl : (st, true) = r := by injection h
      exact ⟨rfl, Or.inr rfl⟩
  | false =>
      simp only [hb_new_inst_member, Bool.false_eq_true, if_neg Bool.false_ne_true] at h
      cases hcv : (compute_clip_variant child_bbox tinv region complex_region).1 with
      | false =>
          rw [hcv] at h
          simp only [if_pos rfl] at h
          obtain rfl : (st, false) = r := by injection h
          exact ⟨rfl, Or.inr rfl⟩
      | true =>
          rw [hcv] at h
          simp only [if_neg (fun hc : (true : Bool) = false => Bool.noConfusion hc)] at h
          cases hip : st.initial_pass with
          | false =>
              rw [hip] at h
              simp only [Bool.false_eq_true, if_neg Bool.false_ne_true] at h
              obtain rfl : _ = r := by injection h
              exact ⟨rfl, Or.inl (Or.inl rfl)⟩
          | true =>
              rw [hip] at h
              simp only [if_pos rfl] at h
              cases hstack : st.cell_stack with
              | nil => rw [hstack] at h; exact absurd h (by simp)
              | cons parent rest =>
                  rw [hstack] at h
                  cases hl : alookup st.cell_map
                      (child, (compute_clip_variant child_bbox tinv region complex_region).2) with
                  | some c =>
                      simp only [lookupOrCreate, hl] at h
                      obtain rfl : _ = r := by injection h
                      exact ⟨rfl, Or.inl (Or.inr (by simp [hstack]))⟩
                  | none =>
                      simp only [lookupOrCreate, hl] at h
                      obtain rfl : _ = r := by injection h
                      exact ⟨rfl, Or.inl (Or.inr (by simp [hstack]))⟩

theorem step_inv (e : Event) (st st' : Builder)
    (hinv : (st.initial_pass = false ∨ st.cell_stack ≠ [] ∨ st.cm_entry ≠ none) →
      alookup st.cell_map (st.ref_iter.top_cell, (∅ : Finset Box)) ≠ none)
    (h : step e st = some st') :
    (st'.initial_pass = false ∨ st'.cell_stack ≠ [] ∨ st'.cm_entry ≠ none) →
      alookup st'.cell_map (st'.ref_iter.top_cell, (∅ : Finset Box)) ≠ none := by
  cases e with
  | begin_ev iter => exact fun _ => hb_begin_inv st iter st' hinv h
  | end_ev =>
      simp only [step] at h
      unfold hb_end at h
      split_ifs at h with hlen
      injection h with h2
      subst h2
      intro _
      refine hinv (Or.inr (Or.inl ?_))
      intro hnil
      rw [hnil] at hlen
      simp at hlen
  | enter_cell =>
      simp only [step] at h
      unfold hb_enter_cell at h
      cases hce : st.cm_entry with
      | none => rw [hce] at h; exact absurd h (by simp)
      | some e0 =>
          rw [hce] at h
          obtain ⟨k, c⟩ := e0
          injection h with h2
          subst h2
          intro _
          exact hinv (Or.inr (Or.inr (by rw [hce]; simp)))
  | leave_cell =>
      simp only [step] at h
      unfold hb_leave_cell at h
      injection h with h2
      subst h2
      intro hant
      refine hinv ?_
      rcases hant with h1 | h1 | h1
      · exact Or.inl h1
      · refine Or.inr (Or.inl ?_)
        intro hnil
        rw [hnil] at h1
        exact h1 rfl
      · exact Or.inr (Or.inr h1)
  | new_inst child all =>
      simp only [step, Option.map_eq_some'] at h
      obtain ⟨r, hr, hst⟩ := h
      subst hst
      obtain ⟨href, hor⟩ := hb_new_inst_post st child all r hr
      rcases hor with hant | heq
      · intro _
        rw [href]
        have hlk := hinv (by rcases hant with h1 | h1; exact Or.inl h1; exact Or.inr (Or.inl h1))
        have hmono := step_lookup_ne_none (Event.new_inst child all) st r.1
          (by simp only [step, hr, Option.map_some']) hlk
        exact hmono
      · rw [heq]
        exact hinv
  | new_inst_member child bb tinv region cr all =>
      simp only [step, Option.map_eq_some'] at h
      obtain ⟨r, hr, hst⟩ := h
      subst hst
      obtain ⟨href, hor⟩ := hb_new_inst_member_post st child bb tinv region cr all r hr
      rcases hor with hant | heq
      · intro _
        rw [href]
        have hlk := hinv (by rcases hant with h1 | h1; exact Or.inl h1; exact Or.inr (Or.inl h1))
        have hmono := step_lookup_ne_none (Event.new_inst_member child bb tinv region cr all)
          st r.1 (by simp only [step, hr, Option.map_some']) hlk
        exact hmono
      · rw [heq]
        exact hinv
  | shape_ev =>
      simp only [step] at h
      injection h with h2
      subst h2
      exact hinv

theorem run_inv : ∀ (evs : List Event) (st st' : Builder),
    ((st.initial_pass = false ∨ st.cell_stack ≠ [] ∨ st.cm_entry ≠ none) →
      alookup st.cell_map (st.ref_iter.top_cell, (∅ : Finset Box)) ≠ none) →
    run evs st = some st' →
    (st'.initial_pass = false ∨ st'.cell_stack ≠ [] ∨ st'.cm_entry ≠ none) →
      alookup st'.cell_map (st'.ref_iter.top_cell, (∅ : Finset Box)) ≠ none := by
  intro evs
  induction evs with
  | nil =>
      intro st st' hinv h
      injection h with h2
      subst h2
      exact hinv
  | cons e es ih =>
      intro st st' hinv h
      cases hs : step e st with
      | none => rw [run, hs] at h; exact absurd h (by simp)
      | some st1 =>
          rw [run, hs] at h
          exact ih st1 st' (step_inv e st st1 hinv hs) h

theorem hb_begin_quiescent (st : Builder) (iter : Iter) (st' : Builder)
    (hip : st.initial_pass = false)
    (hlk : alookup st.cell_map (st.ref_iter.top_cell, (∅ : Finset Box)) ≠ none)
    (h : hb_begin st iter = some st') :
    st'.cell_map = st.cell_map ∧ st'.next_cell = st.next_cell ∧ st'.insts = st.insts := by
  unfold hb_begin at h
  rw [hip] at h
  simp only [Bool.false_eq_true, if_neg Bool.false_ne_true] at h
  by_cases hc : compare_iters st.ref_iter iter = 0
  · rw [if_pos hc] at h
    have htop := compare_zero_top _ _ hc
    rw [htop] at hlk
    cases hl : alookup st.cell_map (iter.top_cell, (∅ : Finset Box)) with
    | none => exact absurd hl hlk
    | some c =>
        simp only [hb_begin_core, lookupOrCreate, hl] at h
        injection h with h2
        subst h2
        exact ⟨rfl, rfl, rfl⟩
  · rw [if_neg hc] at h
    exact absurd h (by simp)

theorem hb_new_inst_quiescent (st : Builder) (child : Nat) (all : Bool)
    (r : Builder × NIMode) (hip : st.initial_pass = false)
    (h : hb_new_inst st child all = some r) :
    r.1.cell_map = st.cell_map ∧ r.1.next_cell = st.next_cell ∧ r.1.insts = st.insts := by
  cases all with
  | false =>
      simp only [hb_new_inst, Bool.false_eq_true, if_neg Bool.false_ne_true] at h
      obtain rfl : (st, NIMode.all) = r := by injection h
      exact ⟨rfl, rfl, rfl⟩
  | true =>
      simp only [hb_new_inst, if_pos rfl] at h
      rw [hip] at h
      simp only [Bool.false_eq_true, if_neg Bool.false_ne_true] at h
      obtain rfl : _ = r := by injection h
      exact ⟨rfl, rfl, rfl⟩

theorem hb_new_inst_member_quiescent (st : Builder) (child : Nat) (child_bbox : Box)
    (tinv : Box → Box) (region : Box) (complex_region : Option (List Box)) (all : Bool)
    (r : Builder × Bool) (hip : st.initial_pass = false)
    (h : hb_new_inst_member st child child_bbox tinv region complex_region all = some r) :
    r.1.cell_map = st.cell_map ∧ r.1.next_cell = st.next_cell ∧ r.1.insts = st.insts := by
  cases all with
  | true =>
      simp only [hb_new_inst_member, if_pos rfl] at h
      obtain rfl : (st, true) = r := by injection h
      exact ⟨rfl, rfl, rfl⟩
  | false =>
      simp only [hb_new_inst_member, Bool.false_eq_true, if_neg Bool.false_ne_true] at h
      cases hcv : (compute_clip_variant child_bbox tinv region complex_region).1 with
      | false =>
          rw [hcv] at h
          simp only [if_pos rfl] at h
          obtain rfl : (st, false) = r := by injection h
          exact ⟨rfl, rfl, rfl⟩
      | true =>
          rw [hcv] at h
          simp only [if_neg (fun hc : (true : Bool) = false => Bool.noConfusion hc)] at h
          rw [hip] at h
          simp only [Bool.false_eq_true, if_neg Bool.false_ne_true] at h
          obtain rfl : _ = r := by injection h
          exact ⟨rfl, rfl, rfl⟩

/-- Claim C1: a `HierarchyBuilder` reused across hierarchy-compatible
traversals without reset.  (i) Over any callback sequence, the target
layout gains exactly one new cell per *new* cell-map key — the new map
bindings have pairwise distinct keys, none previously bound, and the cell
counter grows by their number, so at most one target cell is ever created
per distinct key.  (ii) Any state reached from a fresh builder whose
initial-pass flag is cleared has its reference top key bound in the cell
map; and in that situation (iii) `begin`, (iv) `new_inst` and (v)
`new_inst_member` neither create target cells nor insert instance arrays
(cell map, cell counter and instance list are untouched). -/
theorem C1_reused_builder_passes :
    (∀ (evs : List Event) (st st' : Builder), run evs st = some st' →
       ∃ new : List (CellKey × Nat),
         st'.cell_map = new ++ st.cell_map ∧
         st'.next_cell = st.next_cell + new.length ∧
         (new.map Prod.fst).Nodup ∧
         ∀ k ∈ new.map Prod.fst, alookup st.cell_map k = none) ∧
    (∀ (evs : List Event) (st' : Builder), run evs freshBuilder = some st' →
       st'.initial_pass = false →
       alookup st'.cell_map (st'.ref_iter.top_cell, (∅ : Finset Box)) ≠ none) ∧
    (∀ (st : Builder) (iter : Iter) (st' : Builder),
       st.initial_pass = false →
       alookup st.cell_map (st.ref_iter.top_cell, (∅ : Finset Box)) ≠ none →
       hb_begin st iter = some st' →
       st'.cell_map = st.cell_map ∧ st'.next_cell = st.next_cell ∧ st'.insts = st.insts) ∧
    (∀ (st : Builder) (child : Nat) (all : Bool) (r : Builder × NIMode),
       st.initial_pass = false → hb_new_inst st child all = some r →
       r.1.cell_map = st.cell_map ∧ r.1.next_cell = st.next_cell ∧ r.1.insts = st.insts) ∧
    (∀ (st : Builder) (child : Nat) (child_bbox : Box) (tinv : Box → Box) (region : Box)
       (complex_region : Option (List Box)) (all : Bool) (r : Builder × Bool),
       st.initial_pass = false →
       hb_new_inst_member st child child_bbox tinv region complex_region all = some r →
       r.1.cell_map = st.cell_map ∧ r.1.next_cell = st.next_cell ∧ r.1.insts = st.insts) := by
  refine ⟨run_growth, ?_, hb_begin_quiescent, hb_new_inst_quiescent,
    hb_new_inst_member_quiescent⟩
  intro evs st' h hip
  refine run_inv evs freshBuilder st' ?_ h (Or.inl hip)
  intro hant
  rcases hant with h1 | h1 | h1
  · exact absurd h1 (by simp [freshBuilder])
  · exact absurd rfl h1
  · exact absurd rfl h1

/-- Claim C1, witness: one `begin`/`end` pass on a fresh builder creates
exactly the top cell binding, and a subsequent `begin` and `new_inst` on
the resulting state leave the target structurally unchanged. -/
theorem C1_witness :
    (∃ new : List (CellKey × Nat),
       stW.cell_map = new ++ freshBuilder.cell_map ∧
       stW.next_cell = freshBuilder.next_cell + new.length ∧
       (new.map Prod.fst).Nodup ∧
       ∀ k ∈ new.map Prod.fst, alookup freshBuilder.cell_map k = none) ∧
    (stW.cell_map = stW.cell_map ∧ stW.next_cell = stW.next_cell ∧
      stW.insts = stW.insts) :=
  ⟨C1_reused_builder_passes.1 evsW freshBuilder stW (by decide),
   C1_reused_builder_passes.2.2.2.1 stW 3 true (stW, NIMode.single) (by decide) (by decide)⟩
